import Mathlib

/-!
Shallow embedding of `src/app.py` (a GPT-4o powered address extractor).

The embedded functions are, in the order of the source file:
`gpt_extract_chunked_text` (lines 55-94), `fetch_page_text` (97-106),
`find_subpages` (109-119), `process_url_full` (122-143) and
`process_all` (146-176).

External effects are explicit oracles: HTTP traffic is an `HttpOracle`
mapping (url, user-agent, timeout) to a status plus parsed body or a
raised exception, and the OpenAI chat call is a `GptOracle` mapping
(thread id, chunk) to the raw reply string or a raised exception.
A Python exception crossing a function boundary is `Except.error ()`.
Python strings are modeled as Lean `String`s (lists of characters),
`ast.literal_eval` as an executable parser of Python list/str/int
literals, and parsed HTML (BeautifulSoup) as a small DOM tree.
-/

namespace AddressExtractor

/-! ### Python string helpers -/

/-- Whitespace characters recognized by Python's `str.strip()`
(space, tab, newline, carriage return, vertical tab, form feed). -/
def isPyWs (c : Char) : Bool :=
  c = ' ' ∨ c = '\t' ∨ c = '\n' ∨ c = '\r' ∨ c = Char.ofNat 11 ∨ c = Char.ofNat 12

/-- Python `str.strip()`: drop leading and trailing whitespace. -/
def pyStrip (s : String) : String :=
  String.mk (((s.data.dropWhile isPyWs).reverse.dropWhile isPyWs).reverse)

/-- Character-list prefix test (`p` begins `cs`). -/
def beginsWith : List Char → List Char → Bool
  | [], _ => true
  | _ :: _, [] => false
  | p :: ps, c :: cs => p = c && beginsWith ps cs

/-- Python `startswith` on strings. -/
def strStartsWith (s p : String) : Bool :=
  beginsWith p.data s.data

/-- Substring occurrence test on character lists (Python `k in s` for a
nonempty `k`). -/
def containsSub (needle : List Char) : List Char → Bool
  | [] => needle.isEmpty
  | c :: cs => beginsWith needle (c :: cs) || containsSub needle cs

/-- Python `k in s` substring test. -/
def strContains (s k : String) : Bool :=
  containsSub k.data s.data

/-- Python `str.lower()` (ASCII case folding suffices here). -/
def strLower (s : String) : String :=
  String.mk (s.data.map Char.toLower)

/-! ### A model of `ast.literal_eval`

The model replies of interest are (nested) Python lists of strings and
integers, so the parser covers exactly the literals `[...]`, single- or
double-quoted strings without escape sequences, and (signed) decimal
integers; everything else — in particular a reply starting with a
markdown code fence — fails to parse, which models `ast.literal_eval`
raising. Other Python literal forms (tuples, dicts, floats) never occur
in the replies considered and are likewise rejected. -/

/-- A parsed Python literal value. -/
inductive PyVal where
  | str (s : String)
  | int (n : Int)
  | list (xs : List PyVal)

/-- Single-quote character (written via its code point). -/
def squote : Char := Char.ofNat 39

/-- Double-quote character (written via its code point). -/
def dquote : Char := Char.ofNat 34

/-- Drop leading Python whitespace from a character list. -/
def skipWs : List Char → List Char
  | [] => []
  | c :: cs => if isPyWs c then skipWs cs else c :: cs

/-- Read the body of a quoted string up to the closing quote `q`
(escape sequences are not modeled; none occur in the replies
considered). -/
def readStr (q : Char) : List Char → Option (String × List Char)
  | [] => none
  | c :: cs =>
    if c = q then some ("", cs)
    else
      match readStr q cs with
      | some (s, rest) => some (String.mk (c :: s.data), rest)
      | none => none

/-- Read a nonempty run of decimal digits as a natural number. -/
def readNat (cs : List Char) : Option (Nat × List Char) :=
  let ds := cs.takeWhile Char.isDigit
  if ds.isEmpty then none
  else some (ds.foldl (fun n c => n * 10 + (c.toNat - 48)) 0, cs.dropWhile Char.isDigit)

/-- Parse the items of a list literal after the opening bracket, given
a parser `pv` for single values; `fuel` bounds the number of items. -/
def parseItems (pv : List Char → Option (PyVal × List Char)) :
    Nat → List Char → List PyVal → Option (PyVal × List Char)
  | 0, _, _ => none
  | fuel + 1, cs, acc =>
    match pv cs with
    | none => none
    | some (v, rest) =>
      match skipWs rest with
      | [] => none
      | c :: rest2 =>
        if c = ',' then parseItems pv fuel rest2 (acc ++ [v])
        else if c = ']' then some (.list (acc ++ [v]), rest2)
        else none

/-- Parse one Python literal value; `fuel` bounds the nesting depth. -/
def parseVal : Nat → List Char → Option (PyVal × List Char)
  | 0, _ => none
  | fuel + 1, cs0 =>
    match skipWs cs0 with
    | [] => none
    | c :: cs =>
      if c = squote || c = dquote then
        match readStr c cs with
        | some (s, rest) => some (.str s, rest)
        | none => none
      else if c = '[' then
        match skipWs cs with
        | [] => none
        | c2 :: cs2 =>
          if c2 = ']' then some (.list [], cs2)
          else parseItems (parseVal fuel) (cs.length + 1) (c2 :: cs2) []
      else if c = '-' then
        match readNat cs with
        | some (n, rest) => some (.int (-(n : Int)), rest)
        | none => none
      else if c.isDigit then
        match readNat (c :: cs) with
        | some (n, rest) => some (.int (n : Int), rest)
        | none => none
      else none

/-- Models `ast.literal_eval` on a reply string: parse one literal and
require only trailing whitespace after it; `none` models the call
raising (`SyntaxError`/`ValueError`). -/
def literal_eval (s : String) : Option PyVal :=
  match parseVal (2 * s.length + 2) s.data with
  | some (v, rest) => if (skipWs rest).isEmpty then some v else none
  | none => none

/-! ### `gpt_extract_chunked_text` (src/app.py lines 55-94) -/

/-- Raw reply of `client.chat.completions.create(...).choices[0].message.content`
for a given (thread id, chunk); `none` models the API call raising. -/
def GptOracle : Type := Nat → String → Option String

/-- One iteration of the flattening loop: `", ".join(p.strip() for p in parts)`
for one parsed candidate `parts`. Iterating a Python string yields its
characters (each a one-character string); calling `.strip()` on a
non-string raises, modeled as `Except.error ()`. This loop sits outside
the `try` in the source. -/
def flattenParts : PyVal → Except Unit String
  | .str s => .ok (String.intercalate ", " (s.data.map (fun c => pyStrip (String.mk [c]))))
  | .int _ => .error ()
  | .list xs =>
    (xs.mapM (fun p =>
      match p with
      | .str s => Except.ok (pyStrip s)
      | _ => Except.error ()) : Except Unit (List String)).map (String.intercalate ", ")

/-- The `seen`/`cleaned` loop: keep the first occurrence of each flat
string, preserving order (`if flat not in seen: seen.add(flat); cleaned.append(flat)`). -/
def dedupKeepFirst (xs : List String) : List String :=
  xs.foldl (fun acc x => if x ∈ acc then acc else acc ++ [x]) []

/-- Per-chunk accumulation of `gpt_extract_chunked_text`: call the model,
`strip` the reply and `ast.literal_eval` it inside `try/except` (any
failure skips the chunk with `continue`), and `extend` the accumulator
when the parsed value is a list (`isinstance(extracted, list)`). -/
def collectAddresses (thread_id : Nat) (gO : GptOracle) (chunks : List String) : List PyVal :=
  chunks.foldl (fun acc chunk =>
    match gO thread_id chunk with
    | none => acc
    | some raw =>
      match literal_eval (pyStrip raw) with
      | some (.list xs) => acc ++ xs
      | _ => acc) []

/-- Embeds `gpt_extract_chunked_text(chunks, thread_id)` (src/app.py
lines 55-94): accumulate parsed replies per chunk (parse failures are
swallowed by the per-chunk `try/except`), then — outside any
`try` — flatten each candidate with `", ".join(p.strip() for p in parts)`,
deduplicate by exact string equality and join with `" | "`; with no
candidates the result is `""`. A non-string candidate part makes the
flattening loop raise, which propagates out (`Except.error ()`). -/
def gpt_extract_chunked_text (chunks : List String) (thread_id : Nat) (gO : GptOracle) :
    Except Unit String :=
  let all_addresses := collectAddresses thread_id gO chunks
  if all_addresses.isEmpty then .ok ""
  else do
    let flats ← all_addresses.mapM flattenParts
    .ok (String.intercalate " | " (dedupKeepFirst flats))

/-! ### A DOM model for BeautifulSoup

`BeautifulSoup(html, "html.parser")` yields a tree of elements and text
nodes; the embedding works directly on that tree. A forest of sibling
nodes is the auxiliary type `HtmlList` so that the traversals below are
plain structural recursions. -/

mutual
/-- A parsed HTML node: a text node, or an element with tag name,
attributes and children. -/
inductive Html where
  | text (s : String) : Html
  | elem (tag : String) (attrs : List (String × String)) (children : HtmlList) : Html
/-- A forest of sibling HTML nodes. -/
inductive HtmlList where
  | nil : HtmlList
  | cons (h : Html) (t : HtmlList) : HtmlList
end

/-- First value of an attribute key (BeautifulSoup `link["href"]`). -/
def findAttr (key : String) : List (String × String) → Option String
  | [] => none
  | (k, v) :: t => if k = key then some v else findAttr key t

/-- All text-node contents of a forest, in document order
(BeautifulSoup `.strings`). -/
def textsOfForest : HtmlList → List String
  | .nil => []
  | .cons (.text s) t => s :: textsOfForest t
  | .cons (.elem _ _ c) t => textsOfForest c ++ textsOfForest t

/-- Models `soup.get_text(separator=" ", strip=True)`: every text node
stripped, empty ones dropped, the rest joined with a single space. -/
def getText (h : Html) : String :=
  String.intercalate " "
    (((textsOfForest (.cons h .nil)).map pyStrip).filter (fun s => s ≠ ""))

/-- Models `soup.find_all("a", href=True)`: the `href` attribute of every
anchor element of a forest, in document order. -/
def anchorHrefsForest : HtmlList → List String
  | .nil => []
  | .cons (.text _) t => anchorHrefsForest t
  | .cons (.elem tag attrs c) t =>
    (if tag = "a" then
      match findAttr "href" attrs with
      | some v => [v]
      | none => []
    else []) ++ anchorHrefsForest c ++ anchorHrefsForest t

/-- The `href` attributes of all anchors of a document. -/
def anchorHrefs (h : Html) : List String :=
  anchorHrefsForest (.cons h .nil)

/-! ### A model of `urllib.parse.urljoin` -/

/-- Characters allowed in a URL scheme (RFC 3986: letters, digits,
`+`, `-`, `.`). -/
def isSchemeChar (c : Char) : Bool :=
  c.isAlpha || c.isDigit || c = '+' || c = '-' || c = '.'

/-- Split a character list at the first occurrence of `needle`,
returning the parts before and after it. -/
def splitFirst (needle : List Char) : List Char → Option (List Char × List Char)
  | [] => none
  | c :: t =>
    if beginsWith needle (c :: t) then some ([], (c :: t).drop needle.length)
    else
      match splitFirst needle t with
      | some (pre, post) => some (c :: pre, post)
      | none => none

/-- Split `scheme://rest` of an absolute URL, `none` when no `://`
occurs. -/
def schemeSplit (s : String) : Option (String × String) :=
  match splitFirst ("://".data) s.data with
  | some (pre, post) => some (String.mk pre, String.mk post)
  | none => none

/-- Scheme of an absolute URL (`https` in `https://h/p`); `none` when
the part before `://` is not a well-formed scheme. -/
def schemeOf (s : String) : Option String :=
  match schemeSplit s with
  | some (scheme, _) =>
    if scheme ≠ "" ∧ scheme.data.all isSchemeChar then some scheme else none
  | none => none

/-- Origin `scheme://host` of an absolute URL. -/
def originOf (s : String) : String :=
  match schemeSplit s with
  | some (scheme, rest) =>
    scheme ++ "://" ++ String.mk (rest.data.takeWhile (fun c => c ≠ '/'))
  | none => s

/-- Directory prefix of a URL used for plain relative joins: everything
up to and including the last `/` of the path (an empty path becomes the
host root). -/
def baseDirOf (s : String) : String :=
  match schemeSplit s with
  | some (scheme, rest) =>
    let host := rest.data.takeWhile (fun c => c ≠ '/')
    let path := rest.data.drop host.length
    if path.isEmpty then scheme ++ "://" ++ String.mk host ++ "/"
    else scheme ++ "://" ++ String.mk host ++
      String.mk ((path.reverse.dropWhile (fun c => c ≠ '/')).reverse)
  | none => s

/-- Models `urllib.parse.urljoin(base, ref)` for the reference shapes
occurring here: an empty reference keeps the base, `//`-references adopt
the base scheme, root-relative references join the base origin,
scheme-absolute references replace the base, and other relative
references join the base directory. (Query/fragment handling is not
modeled; no discovered href uses it.) -/
def urljoin (base ref : String) : String :=
  if ref = "" then base
  else if strStartsWith ref "//" then ((schemeOf base).getD "https") ++ ":" ++ ref
  else if strStartsWith ref "/" then originOf base ++ ref
  else if (schemeOf ref).isSome then ref
  else baseDirOf base ++ ref

/-! ### `fetch_page_text` (src/app.py lines 97-106) -/

/-- Outcome of `requests.get(url, headers=..., timeout=...)`: an HTTP
status with the parsed body, or a raised exception (timeout, connection
error, ...). -/
inductive HttpResp where
  | ok (status : Nat) (body : Html)
  | exn

/-- HTTP oracle: receives the URL, the `User-Agent` header value and the
timeout in seconds, exactly the arguments `fetch_page_text` passes. -/
def HttpOracle : Type := String → String → Nat → HttpResp

/-- The fixed browser-like header `{"User-Agent": "Mozilla/5.0"}`. -/
def userAgent : String := "Mozilla/5.0"

/-- The fixed request timeout, `timeout=10` seconds. -/
def fetchTimeout : Nat := 10

/-- Embeds `fetch_page_text(url)` (src/app.py lines 97-106): GET with
the fixed User-Agent and 10-second timeout; on status 200 the stripped
visible text of the body, on any other status or any exception `""`.
The function returns a plain `String`: no exception escapes it. -/
def fetch_page_text (url : String) (hO : HttpOracle) : String :=
  match hO url userAgent fetchTimeout with
  | .exn => ""
  | .ok status body => if status = 200 then getText body else ""

/-! ### `find_subpages` (src/app.py lines 109-119) -/

/-- The keyword list of `find_subpages`. -/
def subpage_keywords : List String := ["contact", "location", "find-us", "get-in-touch"]

/-- Embeds `find_subpages(baseUrl, html)` (src/app.py lines 109-119)
applied to an already-parsed document: lowercase each anchor's `href`,
keep those containing one of the keywords, join each with the base URL,
and deduplicate (the Python `set`; its iteration order is modeled as
first occurrence). -/
def find_subpages (baseUrl : String) (doc : Html) : List String :=
  dedupKeepFirst ((anchorHrefs doc).filterMap (fun h0 =>
    let href := strLower h0
    if subpage_keywords.any (fun k => strContains href k) then some (urljoin baseUrl href)
    else none))

/-! ### `process_url_full` (src/app.py lines 122-143) -/

/-- A cell of the `URL` column as handed to a worker: a string, or a
non-string value (for example NaN from a blank spreadsheet cell). -/
inductive UrlInput where
  | str (s : String)
  | nonStr
deriving DecidableEq

/-- The 12000-character chunk size of the GPT input. -/
def chunkSize : Nat := 12000

/-- Slice a character list into `chunkSize`-character pieces; the fuel
equals the list length, which suffices since every step consumes at
least one character. -/
def chunkAux : Nat → List Char → List (List Char)
  | 0, _ => []
  | _fuel + 1, [] => []
  | fuel + 1, c :: cs => ((c :: cs).take chunkSize) :: chunkAux fuel ((c :: cs).drop chunkSize)

/-- Models `[combined[i:i + 12000] for i in range(0, len(combined), 12000)]`. -/
def chunkString (s : String) : List String :=
  (chunkAux s.length s.data).map String.mk

/-- Embeds `process_url_full(url, thread_id)` (src/app.py lines
122-143). Non-string or blank input short-circuits to `""`. The URL
gets `https://` prepended to its stripped form unless it already starts
with the four characters `http`. `find_subpages` receives `main_text`,
the stripped visible text of the main page (not its HTML): re-parsing
tag-free text yields a single text node, modeled as
`Html.text main_text`. Every discovered subpage is fetched, the
non-empty texts are joined, chunked into 12000-character pieces and
handed to the GPT extractor; a flattening error there propagates out
(`Except.error ()`) since `process_url_full` installs no handler. -/
def process_url_full (url : UrlInput) (thread_id : Nat) (hO : HttpOracle) (gO : GptOracle) :
    Except Unit String :=
  match url with
  | .nonStr => .ok ""
  | .str s =>
    if pyStrip s = "" then .ok ""
    else
      let u := if strStartsWith s "http" then s else "https://" ++ pyStrip s
      let main_text := fetch_page_text u hO
      let sub_links := find_subpages u (Html.text main_text)
      let all_text :=
        (if main_text ≠ "" then [main_text] else []) ++
          sub_links.filterMap (fun sub =>
            let t := fetch_page_text sub hO
            if t ≠ "" then some t else none)
      let combined := pyStrip (String.intercalate " " all_text)
      gpt_extract_chunked_text (chunkString combined) thread_id gO

/-- The URLs `process_url_full` hands to `requests.get`, in call order:
the normalized main URL, then each discovered subpage. It mirrors the
control flow of `process_url_full` exactly. -/
def process_url_full_fetches (url : UrlInput) (hO : HttpOracle) : List String :=
  match url with
  | .nonStr => []
  | .str s =>
    if pyStrip s = "" then []
    else
      let u := if strStartsWith s "http" then s else "https://" ++ pyStrip s
      let main_text := fetch_page_text u hO
      u :: find_subpages u (Html.text main_text)

/-! ### `process_all` (src/app.py lines 146-176)

The thread pool submits `process_url_full(url, i)` for every index `i`;
`as_completed` yields each future exactly once in an arbitrary
completion order, modeled as a list `order` of indices. `results` is a
fixed-size list written at the input index, `failed` grows in completion
order. -/

/-- Value written to `results[i]`:
`result if result.strip() else "Unknown"`, and `"Unknown"` when the
worker raised. -/
def entryOf (r : Except Unit String) : String :=
  match r with
  | .error _ => "Unknown"
  | .ok s => if pyStrip s = "" then "Unknown" else s

/-- Worker outcomes that append `urls[i]` to `failed`: a raised
exception, or a result blank after stripping. -/
def isFailureOutcome (r : Except Unit String) : Bool :=
  match r with
  | .error _ => true
  | .ok s => pyStrip s = ""

/-- One `as_completed` iteration of `process_all` for index `i`. -/
def batchStep (urls : List UrlInput) (run : Nat → Except Unit String)
    (acc : List (Option String) × List UrlInput) (i : Nat) :
    List (Option String) × List UrlInput :=
  (acc.1.set i (some (entryOf (run i))),
   acc.2 ++ (if isFailureOutcome (run i) then [urls.getD i UrlInput.nonStr] else []))

/-- The `as_completed` loop of `process_all` over a completion order,
starting from `results = [None] * len(urls)` and `failed = []`. -/
def batchFold (urls : List UrlInput) (run : Nat → Except Unit String) (order : List Nat) :
    List (Option String) × List UrlInput :=
  order.foldl (batchStep urls run) (List.replicate urls.length none, [])

/-- Worker `i` of `process_all`: `process_url_full(urls[i], i)`. -/
def runOutcome (urls : List UrlInput) (hO : HttpOracle) (gO : GptOracle) (i : Nat) :
    Except Unit String :=
  process_url_full (urls.getD i UrlInput.nonStr) i hO gO

/-- Embeds `process_all(df)` (src/app.py lines 146-176): one future per
input index, completed in the arbitrary order `order`; each completion
writes `results[i]` (`"Unknown"` on an exception or a blank result) and
appends `urls[i]` to `failed` exactly in those cases. Returns the
`Extracted Addresses` column and the failed list. -/
def process_all (urls : List UrlInput) (hO : HttpOracle) (gO : GptOracle) (order : List Nat) :
    List (Option String) × List UrlInput :=
  batchFold urls (runOutcome urls hO gO) order

/-! ### Helper lemmas -/

/-- `List.set` then `get?`, with the in-bounds condition folded into one
`if`. -/
lemma get?_set_cond {α : Type} (l : List α) (i j : Nat) (a : α) :
    (l.set i a).get? j = if i = j ∧ j < l.length then some a else l.get? j := by
  by_cases hij : i = j
  · subst hij
    by_cases hlt : i < l.length
    · rw [if_pos ⟨rfl, hlt⟩]
      exact List.get?_set_eq_of_lt a hlt
    · rw [if_neg (fun h => hlt h.2)]
      rw [List.get?_eq_none.2 (Nat.le_of_not_lt hlt),
        List.get?_eq_none.2 (by simpa using Nat.le_of_not_lt hlt)]
  · rw [List.get?_set_ne a l hij, if_neg (fun h => hij h.1)]

/-- The failures accumulated by the batch loop: the initial list, then
one entry per completed failure index, in completion order. -/
lemma batchFold_go_snd (urls : List UrlInput) (run : Nat → Except Unit String)
    (order : List Nat) (init : List (Option String) × List UrlInput) :
    (order.foldl (batchStep urls run) init).2 =
      init.2 ++ (order.filter (fun i => isFailureOutcome (run i))).map
        (fun i => urls.getD i UrlInput.nonStr) := by
  induction order generalizing init with
  | nil => simp
  | cons o os ih =>
    rw [List.foldl_cons, ih, List.filter_cons]
    by_cases h : isFailureOutcome (run o) <;>
      simp [batchStep, h, List.append_assoc]

/-- The batch loop never changes the length of the results list. -/
lemma batchFold_go_fst_length (urls : List UrlInput) (run : Nat → Except Unit String)
    (order : List Nat) (init : List (Option String) × List UrlInput) :
    (order.foldl (batchStep urls run) init).1.length = init.1.length := by
  induction order generalizing init with
  | nil => rfl
  | cons o os ih => rw [List.foldl_cons, ih]; simp [batchStep]

/-- The results entry at `j` after the batch loop: the outcome of worker
`j` whenever `j` completed in bounds, untouched otherwise. Repeated
completions of the same index are harmless because the written value
depends only on `j`. -/
lemma batchFold_go_fst_get (urls : List UrlInput) (run : Nat → Except Unit String)
    (order : List Nat) (init : List (Option String) × List UrlInput) (j : Nat) :
    (order.foldl (batchStep urls run) init).1.get? j =
      if j ∈ order ∧ j < init.1.length then some (some (entryOf (run j)))
      else init.1.get? j := by
  induction order generalizing init with
  | nil => simp
  | cons o os ih =>
    rw [List.foldl_cons, ih]
    have hlen : (batchStep urls run init o).1.length = init.1.length := by simp [batchStep]
    rw [hlen]
    have hset : (batchStep urls run init o).1.get? j =
        if o = j ∧ j < init.1.length then some (some (entryOf (run o))) else init.1.get? j := by
      have := get?_set_cond init.1 o j (some (entryOf (run o)))
      simpa [batchStep] using this
    by_cases hmem : j ∈ os
    · by_cases hlt : j < init.1.length
      · simp [hmem, hlt, List.mem_cons]
      · rw [if_neg (fun h => hlt h.2), if_neg (fun h => hlt h.2), hset,
          if_neg (fun h => hlt h.2)]
    · rw [if_neg (fun h => hmem h.1), hset]
      by_cases hoj : o = j
      · subst hoj
        by_cases hlt : o < init.1.length
        · rw [if_pos ⟨rfl, hlt⟩, if_pos ⟨List.mem_cons_self o os, hlt⟩]
        · rw [if_neg (fun h => hlt h.2), if_neg (fun h => hlt h.2)]
      · rw [if_neg (fun h => hoj h.1), if_neg]
        rintro ⟨hj, -⟩
        rcases List.mem_cons.1 hj with h | h
        · exact hoj h.symm
        · exact hmem h

/-- Splitting a list by a Boolean predicate preserves the total
length. -/
lemma length_filter_add_length_not {α : Type} (p : α → Bool) (l : List α) :
    (l.filter p).length + (l.filter (fun x => !(p x))).length = l.length := by
  simpa using (List.filter_append_perm p l).length_eq

/-- Membership in the first-occurrence deduplication fold. -/
lemma dedupKeepFirst_go_mem (xs acc : List String) (x : String) :
    x ∈ xs.foldl (fun acc x => if x ∈ acc then acc else acc ++ [x]) acc ↔
      x ∈ acc ∨ x ∈ xs := by
  induction xs generalizing acc with
  | nil => simp
  | cons y ys ih =>
    rw [List.foldl_cons]
    by_cases h : y ∈ acc
    · rw [if_pos h, ih]
      have hxy : x = y → x ∈ acc := fun e => e ▸ h
      simp only [List.mem_cons]
      tauto
    · rw [if_neg h, ih]
      simp only [List.mem_append, List.mem_cons, List.mem_singleton]
      tauto

/-- The first-occurrence deduplication fold preserves `Nodup`. -/
lemma dedupKeepFirst_go_nodup (xs : List String) (acc : List String) (h : acc.Nodup) :
    (xs.foldl (fun acc x => if x ∈ acc then acc else acc ++ [x]) acc).Nodup := by
  induction xs generalizing acc with
  | nil => simpa
  | cons y ys ih =>
    rw [List.foldl_cons]
    by_cases hy : y ∈ acc
    · rw [if_pos hy]; exact ih _ h
    · rw [if_neg hy]
      refine ih _ ?_
      rw [List.nodup_append]
      exact ⟨h, List.nodup_singleton y, by simpa using hy⟩

/-- The deduplicated list of flats has no duplicates — the `seen` set
guarantees exact-string uniqueness. -/
lemma dedupKeepFirst_nodup (xs : List String) : (dedupKeepFirst xs).Nodup :=
  dedupKeepFirst_go_nodup xs [] List.nodup_nil

/-- Deduplication neither invents nor drops values: membership is
unchanged (in particular a blank candidate survives). -/
lemma mem_dedupKeepFirst (xs : List String) (x : String) :
    x ∈ dedupKeepFirst xs ↔ x ∈ xs := by
  simpa using dedupKeepFirst_go_mem xs [] x

/-- Deduplicating a non-empty list yields a non-empty list. -/
lemma dedupKeepFirst_ne_nil (xs : List String) (h : xs ≠ []) : dedupKeepFirst xs ≠ [] := by
  cases xs with
  | nil => exact absurd rfl h
  | cons y ys =>
    intro hcon
    have hy : y ∈ dedupKeepFirst (y :: ys) := (mem_dedupKeepFirst _ _).2 (by simp)
    rw [hcon] at hy
    cases hy

/-- The literal parser rejects any input whose first character can start
no Python literal (it is no whitespace, quote, bracket, minus sign or
digit). -/
lemma parseVal_head_reject (fuel : Nat) (c : Char) (cs : List Char)
    (hws : ¬ (isPyWs c = true)) (h1 : c ≠ squote) (h2 : c ≠ dquote)
    (h3 : c ≠ '[') (h4 : c ≠ '-') (h5 : ¬ (c.isDigit = true)) :
    parseVal fuel (c :: cs) = none := by
  cases fuel with
  | zero => rfl
  | succ f => simp [parseVal, skipWs, hws, h1, h2, h3, h4, h5]

/-- `ast.literal_eval` raises on any reply starting with a backtick
(the first character of a markdown code fence). -/
lemma literal_eval_backtick (s : String) (h : s.data.head? = some (Char.ofNat 96)) :
    literal_eval s = none := by
  obtain ⟨rest, hrest⟩ : ∃ rest, s.data = Char.ofNat 96 :: rest := by
    cases hd : s.data with
    | nil => rw [hd] at h; cases h
    | cons a t =>
      rw [hd] at h
      obtain rfl : a = Char.ofNat 96 := by simpa using h
      exact ⟨t, rfl⟩
  have hrej : parseVal (2 * s.length + 2) s.data = none := by
    rw [hrest]
    exact parseVal_head_reject _ _ _ (by decide) (by decide) (by decide)
      (by decide) (by decide) (by decide)
  unfold literal_eval
  rw [hrej]

/-- An `Extracted Addresses` entry is never the empty string: blank
worker results become `"Unknown"`. -/
lemma entryOf_ne_empty (r : Except Unit String) : entryOf r ≠ "" := by
  cases r with
  | error e => simp [entryOf]
  | ok s =>
    simp only [entryOf]
    by_cases h : pyStrip s = ""
    · simp [h]
    · rw [if_neg h]
      intro e
      exact h (by rw [e]; rfl)

/-- A successful `mapM flattenParts` over a non-empty candidate list
yields a non-empty list of flats. -/
lemma mapM_flattenParts_ne_nil (xs : List PyVal) (ys : List String)
    (hxs : xs ≠ []) (h : xs.mapM flattenParts = .ok ys) : ys ≠ [] := by
  cases xs with
  | nil => exact absurd rfl hxs
  | cons a as =>
    rw [List.mapM_cons] at h
    cases ha : flattenParts a with
    | error e => rw [ha] at h; simp [Bind.bind, Except.bind] at h
    | ok b =>
      rw [ha] at h
      cases has : as.mapM flattenParts with
      | error e => rw [has] at h; simp [Bind.bind, Except.bind] at h
      | ok bs =>
        rw [has] at h
        simp only [Bind.bind, Except.bind, pure, Except.pure, Except.ok.injEq] at h
        rw [← h]
        simp

/-! ### Claim C4 — markdown-fenced replies -/

/-- C4 counterexample: a reply wrapped in a markdown code fence yields
zero candidates, not one — `gpt_extract_chunked_text` never strips the
fence, `ast.literal_eval` fails, and the per-chunk `except: continue`
drops the reply; the identical reply without the fence parses to the
single candidate. -/
theorem fenced_reply_counterexample :
    gpt_extract_chunked_text ["Some page text"] 0
        (fun _ _ => some "```json\n[[\"1 A St\",\"X\",\"YY\",\"00000\"]]\n```") = .ok "" ∧
    gpt_extract_chunked_text ["Some page text"] 0
        (fun _ _ => some "[[\"1 A St\",\"X\",\"YY\",\"00000\"]]") = .ok "1 A St, X, YY, 00000" :=
  ⟨rfl, rfl⟩

/-- C4 (amended): the extractor does not strip markdown code fences; any
reply that still starts with a backtick after stripping whitespace fails
`ast.literal_eval` inside the per-chunk `try/except`, so that chunk
contributes zero candidates and the extraction returns `""`. -/
theorem gpt_fenced_reply_yields_nothing (tid : Nat) (chunk raw : String) (gO : GptOracle)
    (hgO : gO tid chunk = some raw)
    (hfence : (pyStrip raw).data.head? = some (Char.ofNat 96)) :
    gpt_extract_chunked_text [chunk] tid gO = .ok "" := by
  have hle : literal_eval (pyStrip raw) = none := literal_eval_backtick _ hfence
  simp [gpt_extract_chunked_text, collectAddresses, hgO, hle]

/-- Witness for `gpt_fenced_reply_yields_nothing` at a concrete fenced
reply. -/
theorem gpt_fenced_reply_yields_nothing_witness :
    (pyStrip "```python\n[[\"2 B Ave\",\"Y\",\"ZZ\",\"11111\"]]\n```").data.head? =
        some (Char.ofNat 96) ∧
    gpt_extract_chunked_text ["other page text"] 7
        (fun _ _ => some "```python\n[[\"2 B Ave\",\"Y\",\"ZZ\",\"11111\"]]\n```") = .ok "" :=
  ⟨by decide, gpt_fenced_reply_yields_nothing 7 "other page text" _ _ rfl (by decide)⟩

/-! ### Claim C5 — invalid URL handling -/

/-- C5 counterexample: on an invalid (empty) URL `process_url_full`
returns the plain empty string — exactly the same value it returns for
a valid URL whose site is unreachable — so no distinguished
`Failed("Invalid URL")` result value exists anywhere in the code. -/
theorem invalid_url_no_distinct_failure_value :
    process_url_full (UrlInput.str "") 0 (fun _ _ _ => HttpResp.exn) (fun _ _ => none) = .ok "" ∧
    process_url_full (UrlInput.str "example.com") 0 (fun _ _ _ => HttpResp.exn)
        (fun _ _ => none) = .ok "" :=
  ⟨rfl, rfl⟩

/-- C5 (amended): a non-string or blank-after-strip input makes
`process_url_full` return the empty-string sentinel immediately, and no
network call is attempted (the fetch list is empty); the batch level
later records it as `"Unknown"`/failed, with no `"Invalid URL"` reason
anywhere. -/
theorem invalid_url_short_circuit (url : UrlInput) (tid : Nat) (hO : HttpOracle) (gO : GptOracle)
    (h : url = UrlInput.nonStr ∨ ∃ s, url = UrlInput.str s ∧ pyStrip s = "") :
    process_url_full url tid hO gO = .ok "" ∧ process_url_full_fetches url hO = [] := by
  rcases h with rfl | ⟨s, rfl, hs⟩
  · exact ⟨rfl, rfl⟩
  · constructor
    · simp [process_url_full, hs]
    · simp [process_url_full_fetches, hs]

/-- Witness for `invalid_url_short_circuit` on a whitespace-only URL. -/
theorem invalid_url_short_circuit_witness :
    process_url_full (UrlInput.str "   ") 4 (fun _ _ _ => HttpResp.exn) (fun _ _ => none) =
        .ok "" ∧
    process_url_full_fetches (UrlInput.str "   ") (fun _ _ _ => HttpResp.exn) = [] :=
  invalid_url_short_circuit _ 4 _ _ (Or.inr ⟨"   ", rfl, by decide⟩)

/-! ### Claim C6 — fail-soft page fetching -/

/-- C6: `fetch_page_text` sends the fixed `Mozilla/5.0` User-Agent and
the 10-second timeout; a raised request exception or any non-200 status
yields the empty-content sentinel `""`, and status 200 yields the
whitespace-joined stripped visible text. (The Lean embedding returns a
plain `String`, mirroring that the Python function catches every
exception and never raises.) -/
theorem fetch_page_text_contract (url : String) (hO : HttpOracle) :
    (hO url userAgent fetchTimeout = HttpResp.exn → fetch_page_text url hO = "") ∧
    (∀ status body, hO url userAgent fetchTimeout = HttpResp.ok status body → status ≠ 200 →
      fetch_page_text url hO = "") ∧
    (∀ body, hO url userAgent fetchTimeout = HttpResp.ok 200 body →
      fetch_page_text url hO = getText body) := by
  refine ⟨fun h => ?_, fun status body h hst => ?_, fun body h => ?_⟩
  · simp [fetch_page_text, h]
  · simp [fetch_page_text, h, hst]
  · simp [fetch_page_text, h]

/-- Witness for `fetch_page_text_contract`: a 404 response and a raised
exception both give empty content, a 200 response gives the stripped
text. -/
theorem fetch_page_text_contract_witness :
    fetch_page_text "https://missing.example"
        (fun _ _ _ => HttpResp.ok 404 (Html.text "not found")) = "" ∧
    fetch_page_text "https://down.example" (fun _ _ _ => HttpResp.exn) = "" ∧
    fetch_page_text "https://ok.example" (fun _ _ _ => HttpResp.ok 200 (Html.text " hi ")) = "hi" := by
  refine ⟨?_, ?_, ?_⟩
  · exact (fetch_page_text_contract "https://missing.example" _).2.1 404 (Html.text "not found")
      rfl (by decide)
  · exact (fetch_page_text_contract "https://down.example" _).1 rfl
  · have h := (fetch_page_text_contract "https://ok.example"
      (fun _ _ _ => HttpResp.ok 200 (Html.text " hi "))).2.2 (Html.text " hi ") rfl
    rw [h]
    rfl

/-! ### Claim C7 — URL scheme normalization -/

/-- C7 counterexample: the guard is `url.startswith("http")`, not a real
scheme check, so the input `httpexample.com` is passed to the network
call unchanged and without any `http://`/`https://` scheme. -/
theorem scheme_not_enforced_counterexample :
    process_url_full_fetches (UrlInput.str "httpexample.com") (fun _ _ _ => HttpResp.exn) =
        ["httpexample.com"] ∧
    strStartsWith "httpexample.com" "http://" = false ∧
    strStartsWith "httpexample.com" "https://" = false :=
  ⟨rfl, rfl, rfl⟩

/-- C7 (amended): for a non-blank input URL, the main network call
receives `"https://" ++ strip(url)` when the input does not start with
the four characters `http`, and the unmodified input otherwise — even
when that input has no actual scheme. -/
theorem url_normalization (s : String) (hO : HttpOracle) (hne : ¬ (pyStrip s = "")) :
    (strStartsWith s "http" = false →
      (process_url_full_fetches (UrlInput.str s) hO).head? = some ("https://" ++ pyStrip s)) ∧
    (strStartsWith s "http" = true →
      (process_url_full_fetches (UrlInput.str s) hO).head? = some s) := by
  constructor <;> intro hsw <;> simp [process_url_full_fetches, hne, hsw]

/-- Witness for `url_normalization`: `example.com` is fetched as
`https://example.com`. -/
theorem url_normalization_witness :
    (process_url_full_fetches (UrlInput.str "example.com") (fun _ _ _ => HttpResp.exn)).head? =
      some "https://example.com" := by
  have h := (url_normalization "example.com" (fun _ _ _ => HttpResp.exn) (by decide)).1 (by decide)
  rw [h]
  rfl

/-! ### Claim C8 — candidate deduplication and blank candidates -/

/-- C8 counterexample: a parsed candidate that is empty after trimming
is kept, not discarded — the final `" | "`-joined output contains a
blank component. -/
theorem empty_candidate_kept_counterexample :
    gpt_extract_chunked_text ["c"] 0
        (fun _ _ => some "[[\"\"], [\"1 A St\",\"X\",\"YY\",\"00000\"]]") =
      .ok " | 1 A St, X, YY, 00000" ∧
    " | 1 A St, X, YY, 00000" = String.intercalate " | " ["", "1 A St, X, YY, 00000"] ∧
    pyStrip "" = "" :=
  ⟨rfl, rfl, rfl⟩

/-- C8 (amended): when the accumulated candidates are non-empty and
their flattening succeeds with the comma-joined strings `flats`, the
extraction result is exactly the `" | "`-join of `dedupKeepFirst flats`
— the program's `seen`/`cleaned` loop over the merged flats — and that
joined list is deduplicated by exact string equality (`Nodup`) while
keeping every candidate value that occurs, blank ones included
(membership in it coincides with membership in `flats`), and is
non-empty. -/
theorem gpt_output_components_dedup (chunks : List String) (tid : Nat) (gO : GptOracle)
    (flats : List String)
    (hne : (collectAddresses tid gO chunks).isEmpty = false)
    (hflats : (collectAddresses tid gO chunks).mapM flattenParts = .ok flats) :
    gpt_extract_chunked_text chunks tid gO =
      .ok (String.intercalate " | " (dedupKeepFirst flats)) ∧
    (dedupKeepFirst flats).Nodup ∧
    (∀ x, x ∈ dedupKeepFirst flats ↔ x ∈ flats) ∧
    dedupKeepFirst flats ≠ [] := by
  have hnil : collectAddresses tid gO chunks ≠ [] := by
    intro h
    rw [h] at hne
    simp at hne
  refine ⟨?_, dedupKeepFirst_nodup flats, fun x => mem_dedupKeepFirst flats x,
    dedupKeepFirst_ne_nil flats (mapM_flattenParts_ne_nil _ _ hnil hflats)⟩
  simp only [gpt_extract_chunked_text, hne, Bool.false_eq_true, if_false, hflats]
  simp [Bind.bind, Except.bind]

/-- GPT oracle replying with a duplicated address tuple plus a blank
candidate, to exercise the deduplication and blank retention. -/
def dupReplyOracle : GptOracle := fun _ c =>
  if c = "c" then
    some "[[\"1 A St\",\"X\",\"YY\",\"00000\"], [\"1 A St\",\"X\",\"YY\",\"00000\"], [\"\"]]"
  else none

/-- Witness for `gpt_output_components_dedup`: of two identical
candidates exactly one survives, the blank one stays, and the program
output is the `" | "`-join of the deduplicated flats. -/
theorem gpt_output_components_dedup_witness :
    gpt_extract_chunked_text ["c"] 3 dupReplyOracle =
      .ok (String.intercalate " | "
        (dedupKeepFirst ["1 A St, X, YY, 00000", "1 A St, X, YY, 00000", ""])) ∧
    (dedupKeepFirst ["1 A St, X, YY, 00000", "1 A St, X, YY, 00000", ""]).Nodup ∧
    dedupKeepFirst ["1 A St, X, YY, 00000", "1 A St, X, YY, 00000", ""] =
      ["1 A St, X, YY, 00000", ""] := by
  have h := gpt_output_components_dedup ["c"] 3 dupReplyOracle
    ["1 A St, X, YY, 00000", "1 A St, X, YY, 00000", ""] (by decide) rfl
  exact ⟨h.1, h.2.1, by decide⟩

/-! ### Claim C2 — the link discoverer never sees the page HTML -/

/-- A main page whose HTML contains a contact anchor (used to exhibit
the text-instead-of-HTML slip). -/
def contactPage : Html :=
  Html.elem "html" []
    (.cons (Html.elem "a" [("href", "/contact-us")] (.cons (Html.text "Contact Us") .nil))
      (.cons (Html.text "1 A St, X, YY 00000") .nil))

/-- HTTP oracle serving `contactPage` at `https://example.com`. -/
def contactOracle : HttpOracle := fun url _ _ =>
  if url = "https://example.com" then HttpResp.ok 200 contactPage else HttpResp.exn

/-- C2: `fetch_page_text` returns only the stripped visible text of the
page (a single string, not a (text, html) pair), and `process_url_full`
passes that tag-free text — not the raw HTML — to `find_subpages`. On a
page with a matching contact anchor, discovery on the raw HTML would
find `https://example.com/contact-us`, but discovery on the fetched text
finds nothing, so the processor fetches only the main URL. -/
theorem text_passed_to_link_discovery :
    find_subpages "https://example.com" contactPage = ["https://example.com/contact-us"] ∧
    getText contactPage = "Contact Us 1 A St, X, YY 00000" ∧
    find_subpages "https://example.com" (Html.text (getText contactPage)) = [] ∧
    process_url_full_fetches (UrlInput.str "example.com") contactOracle =
      ["https://example.com"] :=
  ⟨rfl, rfl, rfl, rfl⟩

/-! ### Claim C9 — href resolution in `find_subpages` -/

/-- A page with a mixed-case contact href (used to exhibit the
lowercasing of hrefs before resolution). -/
def upperHrefDoc : Html :=
  Html.elem "body" []
    (.cons (Html.elem "a" [("href", "/CONTACT-us")] (.cons (Html.text "Contact") .nil)) .nil)

/-- C9 counterexample: hrefs are lowercased before resolution, so the
anchor `/CONTACT-us` resolves to `https://example.com/contact-us`, not
to the origin joined with the href as written. -/
theorem find_subpages_lowercases_counterexample :
    find_subpages "https://example.com" upperHrefDoc = ["https://example.com/contact-us"] ∧
    ¬ find_subpages "https://example.com" upperHrefDoc = ["https://example.com/CONTACT-us"] :=
  ⟨rfl, by decide⟩

/-- C9 (amended): `find_subpages` returns a deduplicated list containing
`urljoin baseUrl (lower href)` for exactly the keyword-matching anchor
hrefs — each href is lowercased first; a lowercased root-relative href
(starting `/`, not `//`) resolves against the base URL's origin and a
lowercased scheme-absolute href is used directly. -/
theorem find_subpages_resolution (baseUrl : String) (doc : Html) :
    (find_subpages baseUrl doc).Nodup ∧
    (∀ h0, h0 ∈ anchorHrefs doc →
      subpage_keywords.any (fun k => strContains (strLower h0) k) = true →
      urljoin baseUrl (strLower h0) ∈ find_subpages baseUrl doc) ∧
    (∀ u, u ∈ find_subpages baseUrl doc →
      ∃ h0, h0 ∈ anchorHrefs doc ∧
        subpage_keywords.any (fun k => strContains (strLower h0) k) = true ∧
        u = urljoin baseUrl (strLower h0)) ∧
    (∀ ref, strStartsWith ref "/" = true → strStartsWith ref "//" = false →
      urljoin baseUrl ref = originOf baseUrl ++ ref) ∧
    (∀ ref, (schemeOf ref).isSome = true → strStartsWith ref "/" = false →
      strStartsWith ref "//" = false → urljoin baseUrl ref = ref) := by
  refine ⟨dedupKeepFirst_nodup _, fun h0 hmem hkw => ?_, fun u hu => ?_,
    fun ref h1 h2 => ?_, fun ref hs h1 h2 => ?_⟩
  · rw [find_subpages, mem_dedupKeepFirst]
    exact List.mem_filterMap.2 ⟨h0, hmem, by simp [hkw]⟩
  · rw [find_subpages, mem_dedupKeepFirst] at hu
    obtain ⟨h0, hmem, heq⟩ := List.mem_filterMap.1 hu
    by_cases hkw : subpage_keywords.any (fun k => strContains (strLower h0) k) = true
    · refine ⟨h0, hmem, hkw, ?_⟩
      simp only [hkw, if_true] at heq
      exact (Option.some.inj heq).symm
    · simp only [if_neg hkw] at heq
      cases heq
  · have hne : ref ≠ "" := by
      intro e
      rw [e] at h1
      simp [strStartsWith, beginsWith] at h1
    rw [urljoin, if_neg hne, if_neg (by rw [h2]; exact Bool.false_ne_true), if_pos h1]
  · have hne : ref ≠ "" := by
      intro e
      rw [e] at hs
      simp [schemeOf, schemeSplit, splitFirst] at hs
    rw [urljoin, if_neg hne, if_neg (by rw [h2]; exact Bool.false_ne_true),
      if_neg (by rw [h1]; exact Bool.false_ne_true), if_pos hs]

/-- A page with the spec's example anchor `href="/contact-us"`. -/
def specExampleDoc : Html :=
  Html.elem "body" []
    (.cons (Html.elem "a" [("href", "/contact-us")] (.cons (Html.text "Contact Us") .nil)) .nil)

/-- Witness for `find_subpages_resolution` on the spec's example: the
anchor `/contact-us` under base `https://example.com` is discovered as
`https://example.com/contact-us`. -/
theorem find_subpages_resolution_witness :
    "https://example.com/contact-us" ∈ find_subpages "https://example.com" specExampleDoc := by
  have h := (find_subpages_resolution "https://example.com" specExampleDoc).2.1 "/contact-us"
    (by decide) (by decide)
  have e : urljoin "https://example.com" (strLower "/contact-us") =
      "https://example.com/contact-us" := rfl
  rw [e] at h
  exact h

/-! ### Claim C1 — the batch partitions its input -/

/-- C1: for any completion order that is a permutation of the input
indices, `process_all` (i) keeps one results slot per input URL,
(ii) fills slot `j` with the outcome of worker `j` — so the output order
matches the input order regardless of completion order —, (iii) collects
in `failed` exactly the URLs of failure indices (up to completion
order), and (iv) the failure count plus the success count equals the
input count: each input index lands in exactly one of the two
collections. -/
theorem process_all_partitions (urls : List UrlInput) (hO : HttpOracle) (gO : GptOracle)
    (order : List Nat) (results : List (Option String)) (failed : List UrlInput)
    (hperm : order.Perm (List.range urls.length))
    (hrun : process_all urls hO gO order = (results, failed)) :
    results.length = urls.length ∧
    (∀ j, j < urls.length →
      results.get? j = some (some (entryOf (runOutcome urls hO gO j)))) ∧
    failed.Perm (((List.range urls.length).filter
        (fun i => isFailureOutcome (runOutcome urls hO gO i))).map
      (fun i => urls.getD i UrlInput.nonStr)) ∧
    failed.length + ((List.range urls.length).filter
        (fun i => !(isFailureOutcome (runOutcome urls hO gO i)))).length = urls.length := by
  have hres : results = (batchFold urls (runOutcome urls hO gO) order).1 := by
    rw [process_all] at hrun
    rw [hrun]
  have hfail : failed = (batchFold urls (runOutcome urls hO gO) order).2 := by
    rw [process_all] at hrun
    rw [hrun]
  have hlen0 : (List.replicate urls.length (none : Option String)).length = urls.length :=
    List.length_replicate _ _
  refine ⟨?_, fun j hj => ?_, ?_, ?_⟩
  · rw [hres, batchFold, batchFold_go_fst_length]
    exact hlen0
  · rw [hres, batchFold, batchFold_go_fst_get, hlen0]
    have hjmem : j ∈ order := hperm.mem_iff.2 (List.mem_range.2 hj)
    rw [if_pos ⟨hjmem, hj⟩]
  · rw [hfail, batchFold, batchFold_go_snd]
    simpa using (hperm.filter (fun i => isFailureOutcome (runOutcome urls hO gO i))).map
      (fun i => urls.getD i UrlInput.nonStr)
  · have h1 : failed.length = ((List.range urls.length).filter
        (fun i => isFailureOutcome (runOutcome urls hO gO i))).length := by
      rw [hfail, batchFold, batchFold_go_snd]
      simpa using ((hperm.filter
        (fun i => isFailureOutcome (runOutcome urls hO gO i))).map
          (fun i => urls.getD i UrlInput.nonStr)).length_eq
    rw [h1, length_filter_add_length_not]
    exact List.length_range _

/-- Witness for `process_all_partitions`: two inputs (one unreachable
URL, one non-string), completed in reversed order, give one failure
entry per input. -/
theorem process_all_partitions_witness :
    ([UrlInput.nonStr, UrlInput.str "a"] : List UrlInput).length +
      ((List.range 2).filter (fun i => !(isFailureOutcome (runOutcome
        [UrlInput.str "a", UrlInput.nonStr] (fun _ _ _ => HttpResp.exn)
        (fun _ _ => none) i)))).length = 2 :=
  (process_all_partitions [UrlInput.str "a", UrlInput.nonStr] (fun _ _ _ => HttpResp.exn)
    (fun _ _ => none) [1, 0] [some "Unknown", some "Unknown"] [UrlInput.nonStr, UrlInput.str "a"]
    (List.isPerm_iff.mp (by decide)) (by decide)).2.2.2

/-! ### Claim C3 — exception isolation -/

/-- HTTP oracle for the exception-escape scenario: `https://a.com`
serves a page whose text is `hello`. -/
def helloPageOracle : HttpOracle := fun url _ _ =>
  if url = "https://a.com" then HttpResp.ok 200 (Html.text "hello") else HttpResp.exn

/-- GPT oracle replying `[1]` — a well-formed list whose element is not
a string. -/
def intReplyOracle : GptOracle := fun _ c => if c = "hello" then some "[1]" else none

/-- C3 counterexample: `process_url_full` installs no exception handler;
when a chunk's parsed reply is the list `[1]`, the flattening loop calls
`.strip()` on an `int` and the raised `TypeError` escapes
`process_url_full` itself (`Except.error ()`), contradicting the claim
that no exception ever propagates out of it to the batch level. -/
theorem flatten_error_escapes_processor :
    process_url_full (UrlInput.str "a.com") 0 helloPageOracle intReplyOracle = .error () :=
  rfl

/-- C3 (amended): exception isolation lives at the batch level, not in
`process_url_full`: fetch errors and per-chunk parse errors are absorbed
below it, but a flattening error escapes `process_url_full`; the
`try/except` around `future.result()` in `process_all` then converts the
escaped exception into an `"Unknown"` entry at the worker's input index
plus a `failed` entry for its URL. -/
theorem worker_exception_caught_at_batch (urls : List UrlInput) (hO : HttpOracle)
    (gO : GptOracle) (order : List Nat) (results : List (Option String))
    (failed : List UrlInput) (i : Nat)
    (hperm : order.Perm (List.range urls.length))
    (hrun : process_all urls hO gO order = (results, failed))
    (hi : i < urls.length)
    (herr : runOutcome urls hO gO i = .error ()) :
    results.get? i = some (some "Unknown") ∧ urls.getD i UrlInput.nonStr ∈ failed := by
  have hres : results = (batchFold urls (runOutcome urls hO gO) order).1 := by
    rw [process_all] at hrun
    rw [hrun]
  have hfail : failed = (batchFold urls (runOutcome urls hO gO) order).2 := by
    rw [process_all] at hrun
    rw [hrun]
  constructor
  · rw [hres, batchFold, batchFold_go_fst_get]
    have himem : i ∈ order := hperm.mem_iff.2 (List.mem_range.2 hi)
    rw [if_pos ⟨himem, by simpa using hi⟩, herr]
    rfl
  · rw [hfail, batchFold, batchFold_go_snd]
    have himem : i ∈ order := hperm.mem_iff.2 (List.mem_range.2 hi)
    have hif : i ∈ order.filter (fun j => isFailureOutcome (runOutcome urls hO gO j)) :=
      List.mem_filter.2 ⟨himem, by rw [herr]; rfl⟩
    simpa using List.mem_map_of_mem (fun j => urls.getD j UrlInput.nonStr) hif

/-- Witness for `worker_exception_caught_at_batch`: the escaped
flattening exception of `flatten_error_escapes_processor`'s scenario is
recorded by the batch as `"Unknown"` plus a failure entry. -/
theorem worker_exception_caught_at_batch_witness :
    ([some "Unknown"] : List (Option String)).get? 0 = some (some "Unknown") ∧
    ([UrlInput.str "a.com"] : List UrlInput).getD 0 UrlInput.nonStr ∈
      ([UrlInput.str "a.com"] : List UrlInput) :=
  worker_exception_caught_at_batch [UrlInput.str "a.com"] helloPageOracle intReplyOracle
    [0] [some "Unknown"] [UrlInput.str "a.com"] 0 (List.isPerm_iff.mp (by decide))
    (by decide) (by decide) rfl

/-! ### Claim C10 — the `Extracted Addresses` column -/

/-- HTTP oracle for the literal-`Unknown` scenario: `https://example.com`
serves a page whose text is `hello`. -/
def unknownPageOracle : HttpOracle := fun url _ _ =>
  if url = "https://example.com" then HttpResp.ok 200 (Html.text "hello") else HttpResp.exn

/-- GPT oracle whose reply makes the extractor return the literal string
`Unknown`. -/
def unknownReplyOracle : GptOracle := fun _ c =>
  if c = "hello" then some "[[\"Unknown\"]]" else none

/-- C10 counterexample: when the extractor legitimately returns the
string `Unknown` (here from the parsed candidate `[["Unknown"]]`), the
output entry is `Unknown` although the worker neither raised nor
returned a blank string, and the URL is not in the failure list — so
`Unknown` entries do not coincide exactly with the raised-or-blank
cases. -/
theorem unknown_entry_without_failure :
    process_all [UrlInput.str "example.com"] unknownPageOracle unknownReplyOracle [0] =
      ([some "Unknown"], []) ∧
    runOutcome [UrlInput.str "example.com"] unknownPageOracle unknownReplyOracle 0 =
      .ok "Unknown" :=
  ⟨rfl, rfl⟩

/-- C10 (amended): every `Extracted Addresses` entry is a non-empty
string; it is `"Unknown"` whenever the worker raised or returned a
blank-after-strip string, and otherwise it is the worker's returned
string — which may itself be the literal `"Unknown"`; the failure list
consists of exactly the URLs of the raised-or-blank completions. -/
theorem output_entries_amended (urls : List UrlInput) (hO : HttpOracle) (gO : GptOracle)
    (order : List Nat) (results : List (Option String)) (failed : List UrlInput) (j : Nat)
    (hperm : order.Perm (List.range urls.length))
    (hrun : process_all urls hO gO order = (results, failed))
    (hj : j < urls.length) :
    ∃ e : String, results.get? j = some (some e) ∧ e ≠ "" ∧
      (isFailureOutcome (runOutcome urls hO gO j) = true → e = "Unknown") ∧
      (∀ s, runOutcome urls hO gO j = .ok s → ¬ (pyStrip s = "") → e = s) ∧
      failed = (order.filter (fun i => isFailureOutcome (runOutcome urls hO gO i))).map
        (fun i => urls.getD i UrlInput.nonStr) := by
  have hres : results = (batchFold urls (runOutcome urls hO gO) order).1 := by
    rw [process_all] at hrun
    rw [hrun]
  have hfail : failed = (batchFold urls (runOutcome urls hO gO) order).2 := by
    rw [process_all] at hrun
    rw [hrun]
  refine ⟨entryOf (runOutcome urls hO gO j), ?_, entryOf_ne_empty _, fun hf => ?_,
    fun s hok hs => ?_, ?_⟩
  · rw [hres, batchFold, batchFold_go_fst_get]
    have hjmem : j ∈ order := hperm.mem_iff.2 (List.mem_range.2 hj)
    rw [if_pos ⟨hjmem, by simpa using hj⟩]
  · cases hr : runOutcome urls hO gO j with
    | error e => rfl
    | ok s =>
      rw [hr] at hf
      simp only [isFailureOutcome, decide_eq_true_eq] at hf
      simp [entryOf, hf]
  · rw [hok]
    simp [entryOf, hs]
  · rw [hfail, batchFold, batchFold_go_snd]
    simp

/-- Witness for `output_entries_amended` in the literal-`Unknown`
scenario: the single entry is the extractor's own `"Unknown"` and the
failure list is empty. -/
theorem output_entries_amended_witness :
    ∃ e : String, ([some "Unknown"] : List (Option String)).get? 0 = some (some e) ∧ e ≠ "" ∧
      (isFailureOutcome (runOutcome [UrlInput.str "example.com"] unknownPageOracle
        unknownReplyOracle 0) = true → e = "Unknown") ∧
      (∀ s, runOutcome [UrlInput.str "example.com"] unknownPageOracle unknownReplyOracle 0 =
        .ok s → ¬ (pyStrip s = "") → e = s) ∧
      ([] : List UrlInput) = (([0] : List Nat).filter
          (fun i => isFailureOutcome (runOutcome [UrlInput.str "example.com"]
            unknownPageOracle unknownReplyOracle i))).map
        (fun i => ([UrlInput.str "example.com"] : List UrlInput).getD i UrlInput.nonStr) :=
  output_entries_amended [UrlInput.str "example.com"] unknownPageOracle unknownReplyOracle
    [0] [some "Unknown"] [] 0 (List.isPerm_iff.mp (by decide)) (by decide) (by decide)

end AddressExtractor

